import Mathlib

/-!
Verification of the query-resolution-and-caching subsystem of azely.

The embedding follows the source files under src/azely/ (time.py, object.py,
utils.py). Modules referenced there but absent from the source tree
(cache.py, query.py, location.py, consts.py) are modelled from the
specification; each such definition carries a doc comment starting with
"Modelled from the spec:".
-/

namespace Azely

/-! ## Separator splitting (src/azely/time.py)

Python regex patterns of the shape `(?<!^)tok` split a string at the leftmost
occurrence of `tok` that does not start at position 0; `re.split(pat, s, 1)`
returns two parts iff such an occurrence exists.  We embed strings as
character lists for the search and convert back for trimming.
-/

/-- Leftmost occurrence search of `tok` in `s` starting from the current
position: returns the characters before the match and the characters after
the matched token. -/
def splitTokAux (tok : List Char) : List Char → Option (List Char × List Char)
  | [] => none
  | c :: rest =>
    if tok.isPrefixOf (c :: rest) then
      some ([], (c :: rest).drop tok.length)
    else
      match splitTokAux tok rest with
      | some (pre, post) => some (c :: pre, post)
      | none => none

/-- Split `s` at the leftmost occurrence of `tok` at a position other than 0,
as `re.split("(?<!^)tok", s, 1)` does in src/azely/time.py. -/
def splitTok (tok : List Char) : List Char → Option (List Char × List Char)
  | [] => none
  | c :: rest =>
    match splitTokAux tok rest with
    | some (pre, post) => some (c :: pre, post)
    | none => none

/-- Try an ordered list of separator patterns, returning the split of the
first pattern that matches (the `for sep in SEPS` loops in split_query and
split_bound, src/azely/time.py:89-104). -/
def trySeps (seps : List (List Char)) (s : List Char) : Option (List Char × List Char) :=
  match seps with
  | [] => none
  | sep :: rest =>
    match splitTok sep s with
    | some r => some r
    | none => trySeps rest s

/-- QUERY_SEPS from src/azely/time.py:25-29: the arrow tokens before the word
to, each guarded by a negative lookbehind for start-of-string. -/
def QUERY_SEPS : List (List Char) := [['→'], ['-', '>'], ['t', 'o']]

/-- BOUND_SEPS from src/azely/time.py:19-22. -/
def BOUND_SEPS : List (List Char) := [['@'], ['i', 'n']]

/-- DEFAULT_END from src/azely/time.py:23. -/
def DEFAULT_END : String := "In 1 day"

/-- DEFAULT_VIEW from src/azely/time.py:24. -/
def DEFAULT_VIEW : Option String := none

/-- Python str.strip: remove leading and trailing whitespace. -/
def strip (s : String) : String :=
  String.mk (((s.toList.dropWhile Char.isWhitespace).reverse.dropWhile
    Char.isWhitespace).reverse)

/-- split_query from src/azely/time.py:98-104. -/
def split_query (query : String) : String × String :=
  match trySeps QUERY_SEPS query.toList with
  | some (pre, post) => (strip (String.mk pre), strip (String.mk post))
  | none => (strip query, DEFAULT_END)

/-- split_bound from src/azely/time.py:89-95. -/
def split_bound (query : String) : String × Option String :=
  match trySeps BOUND_SEPS query.toList with
  | some (pre, post) => (strip (String.mk pre), some (strip (String.mk post)))
  | none => (strip query, DEFAULT_VIEW)


/-! ## Record Store and cache (spec-modelled where cache.py is absent)

The cache is a mapping from string keys to records; Python dicts preserve
insertion order, so we embed the mapping as an association list with unique
first-occurrence lookup and order-preserving update.
-/

/-- A cache mapping, in insertion order. -/
abbrev Cache (R : Type) := List (String × R)

/-- First-occurrence lookup, as Python dict lookup on an ordered mapping. -/
def lookup_entry {R : Type} : Cache R → String → Option R
  | [], _ => none
  | (k2, v) :: rest, k => if k2 = k then some v else lookup_entry rest k

/-- The key list of a mapping, in insertion order. -/
def cacheKeys {R : Type} (m : Cache R) : List String := m.map Prod.fst

/-- Order-preserving update: replace the value at an existing key in place,
or append a new key at the end (Python dict assignment semantics). -/
def update_entry {R : Type} : Cache R → String → R → Cache R
  | [], k, v => [(k, v)]
  | (k2, v2) :: rest, k, v =>
    if k2 = k then (k, v) :: rest else (k2, v2) :: update_entry rest k v

/-- Modelled from the spec: the central get_or_update primitive of the Record
Store (the cache decorator in cache.py, which is not present under src/).
Given the loaded mapping, the key, the factory outcome and the force_refresh
flag: a cache hit without force_refresh returns the stored record and makes
no external call; otherwise the factory runs, and on success the fresh record
is merged under the key and on failure the error propagates with the mapping
untouched.  The returned Bool records whether the factory was invoked. -/
def get_or_update {R : Type} (m : Cache R) (k : String) (factory : Except String R)
    (force_refresh : Bool) : Except String R × Cache R × Bool :=
  match lookup_entry m k, force_refresh with
  | some v, false => (.ok v, m, false)
  | some _, true =>
    match factory with
    | .ok v => (.ok v, update_entry m k v, true)
    | .error e => (.error e, m, true)
  | none, _ =>
    match factory with
    | .ok v => (.ok v, update_entry m k v, true)
    | .error e => (.error e, m, true)

/-! ## read_yaml (src/azely/utils.py:76-94)

The state of the file at a path, and the outcome of PyYAML parsing its
contents (parsing itself is external and is a parameter of the embedding).
`yaml.load` returns None on an empty document, and the code also maps any
falsy result to an empty dict, so those outcomes coincide below.
-/

/-- State of the file at a path. -/
inductive FileState where
  | missing
  | file (contents : String)

/-- Outcome of PyYAML parsing a file's contents. -/
inductive YamlOutcome (R : Type) where
  | parseError
  | falsy
  | mapping (m : Cache R)

/-- The error raised by filepath.open on a missing file. -/
inductive ReadError where
  | fileNotFound
deriving DecidableEq

/-- read_yaml from src/azely/utils.py:76-94.  The call filepath.open is
outside the try block, so a missing file raises; only yaml.load is guarded,
and a parse failure or a falsy result yields an empty dict. -/
def read_yaml {R : Type} (fs : String → FileState)
    (parse : String → YamlOutcome R) (path : String) : Except ReadError (Cache R) :=
  match fs path with
  | .missing => .error .fileNotFound
  | .file c =>
    match parse c with
    | .parseError => .ok []
    | .falsy => .ok []
    | .mapping m => .ok m

/-! ## Objects (src/azely/object.py) -/

/-- SOLAR_FRAME from src/azely/object.py:73. -/
def SOLAR_FRAME : String := "solar"

/-- The bodies of astropy's solar_system_ephemeris, the runtime value of
SOLAR_BODIES in src/azely/object.py:72. -/
def SOLAR_BODIES : List String :=
  ["sun", "mercury", "venus", "earth-moon-barycenter", "earth", "moon",
   "mars", "jupiter", "saturn", "uranus", "neptune"]

/-- The Object dataclass of src/azely/object.py:76-101, with its fields in
the declared order: name, longitude, latitude, frame. -/
structure Object where
  name : String
  longitude : String
  latitude : String
  frame : String
deriving DecidableEq, Repr

/-- is_solar from src/azely/object.py:98-101. -/
def Object.is_solar (o : Object) : Bool := o.frame = SOLAR_FRAME

/-- Construction of an Object through the dataclass constructor followed by
the unit normalization of post-init (src/azely/object.py:92-96): when the
object is not solar, the astropy Longitude and Latitude constructors — they
are external, so they are parameters normLon and normLat — rewrite the
longitude and latitude strings.  Arguments are positional, in the declared
field order of the dataclass. -/
def mkObject (normLon normLat : String → String)
    (name longitude latitude frame : String) : Object :=
  let o : Object := ⟨name, longitude, latitude, frame⟩
  if o.is_solar then o
  else { o with longitude := normLon o.longitude, latitude := normLat o.latitude }

/-- Python str.capitalize: first character uppercased, the rest lowercased. -/
def capitalize (s : String) : String :=
  match s.toList with
  | [] => ""
  | c :: rest => String.mk (c.toUpper :: rest.map Char.toLower)

/-- The body of get_object_solar from src/azely/object.py:188-195: the call
Object(query.capitalize(), SOLAR_FRAME, "", "") with positional arguments. -/
def get_object_solar_body (normLon normLat : String → String) (query : String) : Object :=
  mkObject normLon normLat (capitalize query) SOLAR_FRAME "" ""

/-- Outcome of the remote CDS lookup SkyCoord.from_name in
get_object_by_name (external collaborator). -/
inductive NameResolution where
  | found (lon lat : String)
  | nameResolveError
  | valueError

/-- The except clauses written in the body of get_object_by_name
(src/azely/object.py:207-216) as they read: the remote lookup either yields
coordinate strings, or the NameResolveError clause maps to
AzelyError "Failed to get object: ...", or the ValueError clause (bad frame)
maps to AzelyError "Failed to parse frame: ...".  On success the call
Object(query, frame, lon, lat) is positional.  Note that this mapping is
unreachable in the staged module: Conf, NameResolveError and AzelyError are
never bound there (see get_object_by_name_run and objectModuleNames). -/
def get_object_by_name_body (normLon normLat : String → String)
    (query frame : String) (res : NameResolution) : Except String Object :=
  match res with
  | .found lon lat => .ok (mkObject normLon normLat query frame lon lat)
  | .nameResolveError => .error ("Failed to get object: " ++ query)
  | .valueError => .error ("Failed to parse frame: " ++ frame)

/-- The names bound at module level in src/azely/object.py: its import
statements (lines 53-69, which bring conf in lowercase from
astropy.utils.data and neither NameResolveError nor AzelyError from
anywhere) and its module-level definitions.  Conf, NameResolveError and
AzelyError are absent. -/
def objectModuleNames : List String :=
  ["dataclass", "List", "Longitude", "Latitude", "SkyCoord", "get_body",
   "solar_system_ephemeris", "ObsTime", "conf", "PathLike", "cache",
   "AZELY_OBJECT", "FRAME", "TIMEOUT", "parse", "SOLAR_BODIES",
   "SOLAR_FRAME", "Object", "get_object", "get_object_solar",
   "get_object_by_name"]

/-- Execution of a get_object_by_name call against the module namespace: the
body's first statement evaluates the name Conf (src/azely/object.py:207),
and in Python evaluating a name bound neither locally nor at module level
raises NameError before anything else runs — in particular before the remote
lookup and before any AzelyError could be raised.  Only if Conf were bound
would the body proceed to the except-clause mapping. -/
def get_object_by_name_run (boundNames : List String)
    (normLon normLat : String → String) (query frame : String)
    (res : NameResolution) : Except String Object :=
  if "Conf" ∈ boundNames then get_object_by_name_body normLon normLat query frame res
  else .error "NameError: name Conf is not defined"

/-! ## Query parsing and the get_object dispatch -/

/-- Modelled from the spec: parse of query.py (absent from src/) splits a raw
query at the first colon at a position other than zero into an explicit
source and a key; without a colon the source is empty and the key is the
whole trimmed query. -/
def parse_query (q : String) : Option String × String :=
  match splitTok [':'] q.toList with
  | some (pre, post) => (some (strip (String.mk pre)), strip (String.mk post))
  | none => (none, strip q)

/-- Python str.lower. -/
def lower (s : String) : String := String.mk (s.toList.map Char.toLower)

/-- Modelled from the spec: AZELY_OBJECT of consts.py (absent from src/),
the default objects cache path under the fixed configuration directory. -/
def AZELY_OBJECT : String := "~/.config/azely/objects.toml"

/-- The dispatch of get_object from src/azely/object.py:170-186: a query
whose parsed key lowercased is a solar-system body goes to get_object_solar
and every other key to get_object_by_name; both are wrapped by the cache
decorator (spec-modelled get_or_update, cache.py being absent from src/) and
both receive source = parsed.source or AZELY_OBJECT as the cache file path.
An explicitly named source is therefore used as the cache file for the same
cached fetchers — there is no separate user-definition-file-only branch.
The solar factory is the pure get_object_solar_body; the remote by-name
factory outcome is the byName parameter.  fs gives the mapping stored at
each path; the result carries the value, the path used, the new mapping at
that path, and whether the factory ran. -/
def get_object_dispatch (normLon normLat : String → String)
    (fs : String → Cache Object) (byName : Except String Object)
    (source : Option String) (key : String) (update : Bool) :
    Except String Object × String × Cache Object × Bool :=
  let path := source.getD AZELY_OBJECT
  if lower key ∈ SOLAR_BODIES then
    let r := get_or_update (fs path) key
      (Except.ok (get_object_solar_body normLon normLat key)) update
    (r.1, path, r.2)
  else
    let r := get_or_update (fs path) key byName update
    (r.1, path, r.2)

/-- A user-definition file holding the single entry GC, for the concrete
instances below. -/
def userFileExample : String → Cache Object :=
  fun p =>
    if p = "user" then [("GC", ⟨"Galactic center", "0deg", "0deg", "galactic"⟩)]
    else []

/-! ## Canonical-name cache keys (spec-modelled) -/

/-- Modelled from the spec: the cached resolver stores a freshly resolved
record under its canonical resolved name — computed by canon from the query,
equal to the name field of the fetched record — rather than under the
literal query string (invariant (3); the cache and rename decorators of
cache.py and utils.py are absent from src/). -/
def cached_resolve {R : Type} (canon : String → String) (fetch : String → R)
    (m : Cache R) (q : String) : R × Cache R × Bool :=
  match lookup_entry m (canon q) with
  | some v => (v, m, false)
  | none =>
    let r := fetch q
    (r, update_entry m (canon q) r, true)

/-! ## Timezone parsing (src/azely/time.py:80-86) -/

/-- A location record; location.py is absent from src/, so only the timezone
field needed by parse_timezone is modelled (from the spec's Location record). -/
structure Location where
  name : String
  timezone : String
deriving DecidableEq, Repr

/-- parse_timezone from src/azely/time.py:80-86: if the view is a valid IANA
timezone name (the ZoneInfo constructor succeeds; validity is the external
parameter isZone, and str(ZoneInfo(q)) returns q itself), return it; otherwise
call the Location resolver exactly once, with update true, and return that
location's timezone.  The Nat counts Location-resolver invocations; the
resolver get_location is a parameter and cannot re-enter this function. -/
def parse_timezone (isZone : String → Bool)
    (get_location : String → Bool → Location) (query : String) : String × Nat :=
  if isZone query then (query, 0)
  else ((get_location query true).timezone, 1)

/-! ### Lemmas about the splitting primitives -/

lemma isPrefixOf_eq_append {tok s : List Char} (h : tok.isPrefixOf s = true) :
    tok ++ s.drop tok.length = s := by
  induction tok generalizing s with
  | nil => simp
  | cons a as ih =>
    cases s with
    | nil => simp [List.isPrefixOf] at h
    | cons b bs =>
      simp only [List.isPrefixOf, Bool.and_eq_true, beq_iff_eq] at h
      obtain ⟨rfl, h2⟩ := h
      simpa using ih h2

lemma isPrefixOf_of_append {tok q s : List Char} (h : tok ++ q = s) :
    tok.isPrefixOf s = true := by
  induction tok generalizing s with
  | nil => simp [List.isPrefixOf]
  | cons a as ih =>
    cases s with
    | nil => simp at h
    | cons b bs =>
      simp only [List.cons_append, List.cons.injEq] at h
      obtain ⟨rfl, h2⟩ := h
      simp only [List.isPrefixOf, Bool.and_eq_true, beq_self_eq_true, true_and]
      exact ih h2

lemma splitTokAux_sound {tok s pre post : List Char}
    (h : splitTokAux tok s = some (pre, post)) :
    pre ++ tok ++ post = s := by
  induction s generalizing pre post with
  | nil => simp [splitTokAux] at h
  | cons c rest ih =>
    rw [splitTokAux] at h
    by_cases hp : tok.isPrefixOf (c :: rest) = true
    · rw [if_pos hp] at h
      obtain ⟨rfl, rfl⟩ := by simpa using h
      simpa using isPrefixOf_eq_append hp
    · rw [if_neg hp] at h
      cases hrec : splitTokAux tok rest with
      | none => rw [hrec] at h; simp at h
      | some r =>
        obtain ⟨pre0, post0⟩ := r
        rw [hrec] at h
        obtain ⟨rfl, rfl⟩ := by simpa using h
        have := ih hrec
        simp [← this]

lemma splitTokAux_leftmost {tok s pre post : List Char}
    (h : splitTokAux tok s = some (pre, post)) :
    ∀ p q : List Char, p ++ tok ++ q = s → pre.length ≤ p.length := by
  induction s generalizing pre post with
  | nil => simp [splitTokAux] at h
  | cons c rest ih =>
    intro p q hpq
    rw [splitTokAux] at h
    by_cases hp : tok.isPrefixOf (c :: rest) = true
    · rw [if_pos hp] at h
      obtain ⟨rfl, rfl⟩ := by simpa using h
      exact Nat.zero_le _
    · rw [if_neg hp] at h
      cases hrec : splitTokAux tok rest with
      | none => rw [hrec] at h; simp at h
      | some r =>
        obtain ⟨pre0, post0⟩ := r
        rw [hrec] at h
        obtain ⟨rfl, rfl⟩ := by simpa using h
        cases p with
        | nil =>
          exfalso
          apply hp
          exact isPrefixOf_of_append (by simpa using hpq)
        | cons d p0 =>
          simp only [List.cons_append, List.cons.injEq] at hpq
          obtain ⟨rfl, hpq2⟩ := hpq
          simpa using ih hrec p0 q hpq2

lemma splitTokAux_none {tok s : List Char} (htok : tok ≠ [])
    (h : splitTokAux tok s = none) :
    ∀ p q : List Char, p ++ tok ++ q ≠ s := by
  induction s with
  | nil =>
    intro p q hpq
    rcases tok with _ | ⟨a, as⟩
    · exact htok rfl
    · cases p <;> simp at hpq
  | cons c rest ih =>
    intro p q hpq
    rw [splitTokAux] at h
    by_cases hp : tok.isPrefixOf (c :: rest) = true
    · rw [if_pos hp] at h; simp at h
    · rw [if_neg hp] at h
      cases hrec : splitTokAux tok rest with
      | some r => rw [hrec] at h; simp at h
      | none =>
        cases p with
        | nil =>
          exact hp (isPrefixOf_of_append (by simpa using hpq))
        | cons d p0 =>
          simp only [List.cons_append, List.cons.injEq] at hpq
          exact ih hrec p0 q hpq.2

lemma splitTok_sound {tok s pre post : List Char}
    (h : splitTok tok s = some (pre, post)) :
    pre ≠ [] ∧ pre ++ tok ++ post = s := by
  cases s with
  | nil => simp [splitTok] at h
  | cons c rest =>
    rw [splitTok] at h
    cases hrec : splitTokAux tok rest with
    | none => rw [hrec] at h; simp at h
    | some r =>
      obtain ⟨pre0, post0⟩ := r
      rw [hrec] at h
      obtain ⟨rfl, rfl⟩ := by simpa using h
      refine ⟨by simp, ?_⟩
      have := splitTokAux_sound hrec
      simp [← this]

lemma splitTok_leftmost {tok s pre post : List Char}
    (h : splitTok tok s = some (pre, post)) :
    ∀ p q : List Char, p ≠ [] → p ++ tok ++ q = s → pre.length ≤ p.length := by
  cases s with
  | nil => simp [splitTok] at h
  | cons c rest =>
    rw [splitTok] at h
    cases hrec : splitTokAux tok rest with
    | none => rw [hrec] at h; simp at h
    | some r =>
      obtain ⟨pre0, post0⟩ := r
      rw [hrec] at h
      obtain ⟨rfl, rfl⟩ := by simpa using h
      intro p q hpne hpq
      cases p with
      | nil => exact absurd rfl hpne
      | cons d p0 =>
        simp only [List.cons_append, List.cons.injEq] at hpq
        simpa using splitTokAux_leftmost hrec p0 q hpq.2

lemma splitTok_none {tok s : List Char} (htok : tok ≠ [])
    (h : splitTok tok s = none) :
    ∀ p q : List Char, p ≠ [] → p ++ tok ++ q ≠ s := by
  cases s with
  | nil =>
    intro p q hpne hpq
    rcases tok with _ | ⟨a, as⟩
    · exact htok rfl
    · cases p <;> simp at hpq
  | cons c rest =>
    rw [splitTok] at h
    cases hrec : splitTokAux tok rest with
    | some r => rw [hrec] at h; simp at h
    | none =>
      intro p q hpne hpq
      cases p with
      | nil => exact absurd rfl hpne
      | cons d p0 =>
        simp only [List.cons_append, List.cons.injEq] at hpq
        exact splitTokAux_none htok hrec p0 q hpq.2

lemma trySeps_eq_some {seps : List (List Char)} {s : List Char}
    {r : List Char × List Char} (h : trySeps seps s = some r) :
    ∃ seps1 sep seps2, seps = seps1 ++ sep :: seps2
      ∧ (∀ t ∈ seps1, splitTok t s = none) ∧ splitTok sep s = some r := by
  induction seps with
  | nil => simp [trySeps] at h
  | cons sep rest ih =>
    rw [trySeps] at h
    cases hs : splitTok sep s with
    | some r2 =>
      rw [hs] at h
      refine ⟨[], sep, rest, by simp, by simp, ?_⟩
      simpa [hs] using h
    | none =>
      rw [hs] at h
      obtain ⟨s1, sp, s2, heq, hnone, hsome⟩ := ih h
      refine ⟨sep :: s1, sp, s2, by simp [heq], ?_, hsome⟩
      intro t ht
      rcases List.mem_cons.mp ht with rfl | ht2
      · exact hs
      · exact hnone t ht2

/-! ### Lemmas about the cache mapping -/

lemma lookup_update_self {R : Type} (m : Cache R) (k : String) (v : R) :
    lookup_entry (update_entry m k v) k = some v := by
  induction m with
  | nil => simp [update_entry, lookup_entry]
  | cons p rest ih =>
    obtain ⟨k2, v2⟩ := p
    by_cases h : k2 = k
    · simp [update_entry, lookup_entry, h]
    · simp [update_entry, lookup_entry, h, ih]

lemma lookup_update_ne {R : Type} (m : Cache R) (k k2 : String) (v : R)
    (h : k2 ≠ k) : lookup_entry (update_entry m k v) k2 = lookup_entry m k2 := by
  have hne : ¬ k = k2 := fun hh => h hh.symm
  induction m with
  | nil => simp [update_entry, lookup_entry, hne]
  | cons p rest ih =>
    obtain ⟨k3, v3⟩ := p
    by_cases h3 : k3 = k
    · subst h3
      simp [update_entry, lookup_entry, hne]
    · by_cases h2 : k3 = k2
      · simp [update_entry, lookup_entry, h3, h2, h]
      · simp [update_entry, lookup_entry, h3, h2, ih]

lemma keys_update {R : Type} (m : Cache R) (k : String) (v : R) :
    cacheKeys (update_entry m k v) =
      if k ∈ cacheKeys m then cacheKeys m else cacheKeys m ++ [k] := by
  induction m with
  | nil => simp [update_entry, cacheKeys]
  | cons p rest ih =>
    obtain ⟨k2, v2⟩ := p
    by_cases h : k2 = k
    · subst h
      simp [update_entry, cacheKeys]
    · have hne : ¬ k = k2 := fun hh => h hh.symm
      have hcons : cacheKeys ((k2, v2) :: update_entry rest k v) =
          k2 :: cacheKeys (update_entry rest k v) := rfl
      have hcons2 : cacheKeys ((k2, v2) :: rest) = k2 :: cacheKeys rest := rfl
      rw [show update_entry ((k2, v2) :: rest) k v =
            (k2, v2) :: update_entry rest k v from by rw [update_entry, if_neg h]]
      rw [hcons, hcons2, ih]
      by_cases hmem : k ∈ cacheKeys rest
      · rw [if_pos hmem, if_pos (by simp [List.mem_cons, hmem])]
      · rw [if_neg hmem, if_neg (by simp [List.mem_cons, hne, hmem])]
        simp

lemma mem_keys_lookup {R : Type} (m : Cache R) (k : String) :
    k ∈ cacheKeys m ↔ (lookup_entry m k).isSome := by
  induction m with
  | nil => simp [cacheKeys, lookup_entry]
  | cons p rest ih =>
    obtain ⟨k2, v2⟩ := p
    by_cases h : k2 = k
    · subst h
      simp [cacheKeys, lookup_entry]
    · have hne : ¬ k = k2 := fun hh => h hh.symm
      rw [show cacheKeys ((k2, v2) :: rest) = k2 :: cacheKeys rest from rfl,
        List.mem_cons, lookup_entry, if_neg h]
      simp [hne, ih]

lemma update_entry_append {R : Type} (m : Cache R) (k : String) (v : R)
    (h : k ∉ cacheKeys m) : update_entry m k v = m ++ [(k, v)] := by
  induction m with
  | nil => simp [update_entry]
  | cons p rest ih =>
    obtain ⟨k2, v2⟩ := p
    rw [show cacheKeys ((k2, v2) :: rest) = k2 :: cacheKeys rest from rfl,
      List.mem_cons] at h
    push_neg at h
    rw [update_entry, if_neg (fun hh => h.1 hh.symm), ih h.2]
    simp

lemma trySeps_decomp {seps : List (List Char)} (hne : ∀ t ∈ seps, t ≠ [])
    {s pre post : List Char} (h : trySeps seps s = some (pre, post)) :
    ∃ seps1 sep seps2, seps = seps1 ++ sep :: seps2
      ∧ (∀ t ∈ seps1, ∀ p q : List Char, p ≠ [] → p ++ t ++ q ≠ s)
      ∧ pre ≠ [] ∧ pre ++ sep ++ post = s
      ∧ (∀ p q : List Char, p ≠ [] → p ++ sep ++ q = s → pre.length ≤ p.length) := by
  obtain ⟨s1, sep, s2, heq, hnone, hsome⟩ := trySeps_eq_some h
  refine ⟨s1, sep, s2, heq, ?_, (splitTok_sound hsome).1, (splitTok_sound hsome).2,
    splitTok_leftmost hsome⟩
  intro t ht
  have htmem : t ∈ seps := by
    rw [heq]; exact List.mem_append_left _ ht
  exact splitTok_none (hne t htmem) (hnone t ht)

/-! ## Claim theorems -/

/-- C6: split_query tries the separator patterns in the fixed priority order
of QUERY_SEPS (the arrow tokens before the word to), splits only at the
leftmost occurrence of the first pattern that matches, never at the very
start of the string, whitespace-trims both parts, and when no separator
matches it returns the whole trimmed query with the synthesized default end
bound "In 1 day"; in particular on "2024-01-01 to 2024-01-02" it returns
("2024-01-01", "2024-01-02") and on "2024-01-01" it returns
("2024-01-01", "In 1 day"). -/
theorem split_query_correct :
    split_query "2024-01-01 to 2024-01-02" = ("2024-01-01", "2024-01-02")
    ∧ split_query "2024-01-01" = ("2024-01-01", "In 1 day")
    ∧ (∀ q : String, trySeps QUERY_SEPS q.toList = none →
        split_query q = (strip q, "In 1 day"))
    ∧ (∀ (q : String) (pre post : List Char),
        trySeps QUERY_SEPS q.toList = some (pre, post) →
        split_query q = (strip (String.mk pre), strip (String.mk post))
        ∧ ∃ seps1 sep seps2, QUERY_SEPS = seps1 ++ sep :: seps2
            ∧ (∀ t ∈ seps1, ∀ p s2 : List Char, p ≠ [] → p ++ t ++ s2 ≠ q.toList)
            ∧ pre ≠ []
            ∧ pre ++ sep ++ post = q.toList
            ∧ (∀ p s2 : List Char, p ≠ [] → p ++ sep ++ s2 = q.toList →
                pre.length ≤ p.length)) := by
  refine ⟨by decide, by decide, ?_, ?_⟩
  · intro q h
    have h2 : trySeps QUERY_SEPS q.data = none := h
    simp [split_query, h, h2, DEFAULT_END]
  · intro q pre post h
    have h2 : trySeps QUERY_SEPS q.data = some (pre, post) := h
    exact ⟨by simp [split_query, h, h2], trySeps_decomp (by decide) h⟩

/-- Witness for C6 at concrete inputs: a query without separator takes the
default end bound, and a query with the word to splits at it. -/
theorem split_query_correct_witness :
    split_query "xyz" = (strip "xyz", "In 1 day")
    ∧ split_query "a to b" = (strip (String.mk ['a', ' ']), strip (String.mk [' ', 'b'])) :=
  ⟨split_query_correct.2.2.1 "xyz" (by decide),
   (split_query_correct.2.2.2 "a to b" ['a', ' '] [' ', 'b'] (by decide)).1⟩

/-- C7: split_bound splits a time bound into a time expression and a view
using the ordered separator list BOUND_SEPS (the at-sign before the word in),
at the leftmost occurrence of the first pattern that matches, never at
position 0, trimming both substrings; without a separator the view is none.
In particular split_bound "12:00@Tokyo" = ("12:00", some "Tokyo") and
split_bound "12:00" = ("12:00", none). -/
theorem split_bound_correct :
    split_bound "12:00@Tokyo" = ("12:00", some "Tokyo")
    ∧ split_bound "12:00" = ("12:00", none)
    ∧ (∀ q : String, trySeps BOUND_SEPS q.toList = none →
        split_bound q = (strip q, none))
    ∧ (∀ (q : String) (pre post : List Char),
        trySeps BOUND_SEPS q.toList = some (pre, post) →
        split_bound q = (strip (String.mk pre), some (strip (String.mk post)))
        ∧ ∃ seps1 sep seps2, BOUND_SEPS = seps1 ++ sep :: seps2
            ∧ (∀ t ∈ seps1, ∀ p s2 : List Char, p ≠ [] → p ++ t ++ s2 ≠ q.toList)
            ∧ pre ≠ []
            ∧ pre ++ sep ++ post = q.toList
            ∧ (∀ p s2 : List Char, p ≠ [] → p ++ sep ++ s2 = q.toList →
                pre.length ≤ p.length)) := by
  refine ⟨by decide, by decide, ?_, ?_⟩
  · intro q h
    have h2 : trySeps BOUND_SEPS q.data = none := h
    simp [split_bound, h, h2, DEFAULT_VIEW]
  · intro q pre post h
    have h2 : trySeps BOUND_SEPS q.data = some (pre, post) := h
    exact ⟨by simp [split_bound, h, h2], trySeps_decomp (by decide) h⟩

/-- Witness for C7 at concrete inputs: a bound without separator has view
none, and a bound with an at-sign splits there. -/
theorem split_bound_correct_witness :
    split_bound "12:34" = (strip "12:34", none)
    ∧ split_bound "5@x" = (strip (String.mk ['5']), some (strip (String.mk ['x']))) :=
  ⟨split_bound_correct.2.2.1 "12:34" (by decide),
   (split_bound_correct.2.2.2 "5@x" ['5'] ['x'] (by decide)).1⟩

/-- C1: resolving the same key twice through get_or_update with force_refresh
false is idempotent — a cache hit returns the stored record without invoking
the factory, and after any successful call the second call returns the same
record with no external call, whatever factory outcome the second call would
have produced. -/
theorem cached_resolver_idempotent :
    (∀ (R : Type) (m : Cache R) (k : String) (v : R) (f : Except String R),
      lookup_entry m k = some v →
      get_or_update m k f false = (.ok v, m, false))
    ∧ (∀ (R : Type) (m m2 : Cache R) (k : String) (f f2 : Except String R)
        (r : R) (called : Bool),
      get_or_update m k f false = (.ok r, m2, called) →
      get_or_update m2 k f2 false = (.ok r, m2, false)) := by
  constructor
  · intro R m k v f h
    simp [get_or_update, h]
  · intro R m m2 k f f2 r called h
    cases hl : lookup_entry m k with
    | some v =>
      simp only [get_or_update, hl] at h
      obtain ⟨h1, h2, h3⟩ := by simpa using h
      subst h1; subst h2
      simp [get_or_update, hl]
    | none =>
      cases f with
      | ok v =>
        simp only [get_or_update, hl] at h
        obtain ⟨h1, h2, h3⟩ := by simpa using h
        subst h1; subst h2
        simp [get_or_update, lookup_update_self]
      | error e => simp [get_or_update, hl] at h

/-- Witness for C1: a hit on a stored entry ignores a failing factory, and a
second call after a fresh resolution makes no external call. -/
theorem cached_resolver_idempotent_witness :
    get_or_update [("a", (1 : Nat))] "a" (Except.error "boom") false
      = (Except.ok 1, [("a", 1)], false)
    ∧ get_or_update [("k", (5 : Nat))] "k" (Except.error "down") false
      = (Except.ok 5, [("k", 5)], false) :=
  ⟨cached_resolver_idempotent.1 Nat [("a", 1)] "a" 1 (Except.error "boom") (by decide),
   cached_resolver_idempotent.2 Nat [] [("k", 5)] "k" (Except.ok 5)
     (Except.error "down") 5 true rfl⟩

/-- C2: a cache write through get_or_update never discards or alters
unrelated keys — every other key keeps its value, the key list is the old one
(existing key) or the old one with the new key appended (new key), a forced
refresh stores the new value under the key, and a genuinely new key is
appended at the end of the mapping. -/
theorem cache_merge_safety :
    ∀ (R : Type) (m : Cache R) (k : String) (v : R) (fr : Bool)
      (res : Except String R) (m2 : Cache R) (called : Bool),
      get_or_update m k (Except.ok v) fr = (res, m2, called) →
      (∀ k2, k2 ≠ k → lookup_entry m2 k2 = lookup_entry m k2)
      ∧ cacheKeys m2 = (if k ∈ cacheKeys m then cacheKeys m else cacheKeys m ++ [k])
      ∧ (fr = true → lookup_entry m2 k = some v)
      ∧ (k ∉ cacheKeys m → m2 = m ++ [(k, v)]) := by
  intro R m k v fr res m2 called h
  have hupdate :
      (∀ k2, k2 ≠ k → lookup_entry (update_entry m k v) k2 = lookup_entry m k2)
      ∧ cacheKeys (update_entry m k v)
          = (if k ∈ cacheKeys m then cacheKeys m else cacheKeys m ++ [k])
      ∧ lookup_entry (update_entry m k v) k = some v
      ∧ (k ∉ cacheKeys m → update_entry m k v = m ++ [(k, v)]) :=
    ⟨fun k2 hk2 => lookup_update_ne m k k2 v hk2, keys_update m k v,
     lookup_update_self m k v, update_entry_append m k v⟩
  cases hl : lookup_entry m k with
  | some v0 =>
    have hmem : k ∈ cacheKeys m := (mem_keys_lookup m k).mpr (by simp [hl])
    cases fr with
    | false =>
      simp only [get_or_update, hl] at h
      obtain ⟨h1, h2, h3⟩ := by simpa using h
      subst h2
      exact ⟨fun k2 _ => rfl, by simp [hmem], fun hfr => absurd hfr (by simp),
        fun hk => absurd hmem hk⟩
    | true =>
      simp only [get_or_update, hl] at h
      obtain ⟨h1, h2, h3⟩ := by simpa using h
      subst h2
      exact ⟨hupdate.1, hupdate.2.1, fun _ => hupdate.2.2.1,
        fun hk => absurd hmem hk⟩
  | none =>
    simp only [get_or_update, hl] at h
    obtain ⟨h1, h2, h3⟩ := by simpa using h
    subst h2
    exact ⟨hupdate.1, hupdate.2.1, fun _ => hupdate.2.2.1, hupdate.2.2.2⟩

/-- Witness for C2: resolving a new key C on a cache holding A and B leaves B
at its old value, and refreshing existing key A leaves B at its old value. -/
theorem cache_merge_safety_witness :
    lookup_entry [("A", (1 : Nat)), ("B", 2), ("C", 3)] "B"
      = lookup_entry [("A", 1), ("B", 2)] "B"
    ∧ lookup_entry [("A", (10 : Nat)), ("B", 2)] "B"
      = lookup_entry [("A", 1), ("B", 2)] "B" :=
  ⟨(cache_merge_safety Nat [("A", 1), ("B", 2)] "C" 3 false (Except.ok 3)
      [("A", 1), ("B", 2), ("C", 3)] true rfl).1 "B" (by decide),
   (cache_merge_safety Nat [("A", 1), ("B", 2)] "A" 10 true (Except.ok 10)
      [("A", 10), ("B", 2)] true rfl).1 "B" (by decide)⟩

/-- C3 counterexample: on a missing file read_yaml raises (filepath.open is
outside the try block in src/azely/utils.py:77), rather than returning the
empty mapping the claim asserts. -/
theorem read_yaml_missing_file_raises :
    read_yaml (R := Nat) (fun _ => FileState.missing) (fun _ => YamlOutcome.falsy)
      "objects.yaml" = Except.error ReadError.fileNotFound
    ∧ read_yaml (R := Nat) (fun _ => FileState.missing) (fun _ => YamlOutcome.falsy)
        "objects.yaml" ≠ Except.ok [] :=
  ⟨rfl, fun h => Except.noConfusion h⟩

/-- C3 amended: read_yaml returns an empty mapping, and does not raise, when
the file exists but is empty (a falsy parse) or fails to parse; when the file
does not exist it raises a file-not-found error instead. -/
theorem read_yaml_tolerates_empty_and_corrupt :
    ∀ (R : Type) (fs : String → FileState) (parse : String → YamlOutcome R)
      (path : String),
      (fs path = FileState.missing →
        read_yaml fs parse path = Except.error ReadError.fileNotFound)
      ∧ (∀ c, fs path = FileState.file c → parse c = YamlOutcome.parseError →
          read_yaml fs parse path = Except.ok ([] : Cache R))
      ∧ (∀ c, fs path = FileState.file c → parse c = YamlOutcome.falsy →
          read_yaml fs parse path = Except.ok ([] : Cache R))
      ∧ (∀ c m, fs path = FileState.file c → parse c = YamlOutcome.mapping m →
          read_yaml fs parse path = Except.ok m) := by
  intro R fs parse path
  refine ⟨fun h => by simp [read_yaml, h], ?_, ?_, ?_⟩
  · intro c hc hp
    simp [read_yaml, hc, hp]
  · intro c hc hp
    simp [read_yaml, hc, hp]
  · intro c m hc hp
    simp [read_yaml, hc, hp]

/-- Witness for the amended C3: a zero-byte file (PyYAML yields a falsy
result) and a corrupt file both load as the empty mapping. -/
theorem read_yaml_tolerates_witness :
    read_yaml (fun _ => FileState.file "") (fun _ => YamlOutcome.falsy) "cache.yaml"
      = Except.ok ([] : Cache Nat)
    ∧ read_yaml (fun _ => FileState.file "[unclosed") (fun _ => YamlOutcome.parseError)
        "cache.yaml" = Except.ok ([] : Cache Nat) :=
  ⟨(read_yaml_tolerates_empty_and_corrupt Nat (fun _ => FileState.file "")
      (fun _ => YamlOutcome.falsy) "cache.yaml").2.2.1 "" rfl rfl,
   (read_yaml_tolerates_empty_and_corrupt Nat (fun _ => FileState.file "[unclosed")
      (fun _ => YamlOutcome.parseError) "cache.yaml").2.1 "[unclosed" rfl rfl⟩

/-- C4 counterexample: the claim fails on the staged dispatch of get_object
(src/azely/object.py:170-186).  Parsing user:mars yields the explicit source
user; the dispatch feeds that file to the same cached fetcher as the cache
path, so the missing entry mars does not raise an entry-not-found error —
the factory is invoked (flag true) and the fresh record is written back into
the user file, which afterwards holds GC and mars; and for the non-solar
missing key M42 the remote factory is likewise invoked (flag true, its error
propagating) although the claim says no remote fetch is ever made. -/
theorem explicit_source_counterexample :
    parse_query "user:mars" = (some "user", "mars")
    ∧ get_object_dispatch id id userFileExample (Except.error "unused")
        (some "user") "mars" false
      = (Except.ok ⟨"Mars", "solar", "", ""⟩, "user",
         [("GC", ⟨"Galactic center", "0deg", "0deg", "galactic"⟩),
          ("mars", ⟨"Mars", "solar", "", ""⟩)], true)
    ∧ get_object_dispatch id id userFileExample (Except.error "remote invoked")
        (some "user") "M42" false
      = (Except.error "remote invoked", "user",
         [("GC", ⟨"Galactic center", "0deg", "0deg", "galactic"⟩)], true) :=
  ⟨rfl, rfl, rfl⟩

/-- C4 (amended): a query with an explicit source routes through the same
cached fetchers with the named file as the cache path — the path used is the
named source and the default objects cache plays no role (the outcome depends
on the file system only through that file); an entry present in the named
file is returned without invoking any factory when update is false; but a
missing entry invokes the factory — get_object_solar_body for solar keys,
the remote by-name fetch otherwise — and a successful fresh record is
written back into the named source file instead of an entry-not-found error;
without an explicit source the default path AZELY_OBJECT is used. -/
theorem explicit_source_uses_named_file_as_cache :
    ∀ (normLon normLat : String → String) (fs : String → Cache Object)
      (byName : Except String Object) (s key : String) (u : Bool),
      (get_object_dispatch normLon normLat fs byName (some s) key u).2.1 = s
      ∧ (∀ fs2 : String → Cache Object, fs2 s = fs s →
          get_object_dispatch normLon normLat fs2 byName (some s) key u
            = get_object_dispatch normLon normLat fs byName (some s) key u)
      ∧ (∀ v, lookup_entry (fs s) key = some v → u = false →
          get_object_dispatch normLon normLat fs byName (some s) key u
            = (Except.ok v, s, fs s, false))
      ∧ (lower key ∈ SOLAR_BODIES → lookup_entry (fs s) key = none →
          get_object_dispatch normLon normLat fs byName (some s) key u
            = (Except.ok (get_object_solar_body normLon normLat key), s,
               update_entry (fs s) key (get_object_solar_body normLon normLat key),
               true))
      ∧ (∀ r, lower key ∉ SOLAR_BODIES → lookup_entry (fs s) key = none →
          byName = Except.ok r →
          get_object_dispatch normLon normLat fs byName (some s) key u
            = (Except.ok r, s, update_entry (fs s) key r, true))
      ∧ (get_object_dispatch normLon normLat fs byName none key u).2.1
          = AZELY_OBJECT := by
  intro nl nm fs byName s key u
  refine ⟨?_, ?_, ?_, ?_, ?_, ?_⟩
  · by_cases hsolar : lower key ∈ SOLAR_BODIES <;>
      simp [get_object_dispatch, hsolar]
  · intro fs2 h
    by_cases hsolar : lower key ∈ SOLAR_BODIES <;>
      simp [get_object_dispatch, hsolar, h]
  · intro v hv hu
    subst hu
    by_cases hsolar : lower key ∈ SOLAR_BODIES <;>
      simp [get_object_dispatch, hsolar, get_or_update, hv]
  · intro hsolar hnone
    cases u <;> simp [get_object_dispatch, hsolar, get_or_update, hnone]
  · intro r hsolar hnone hb
    subst hb
    cases u <;> simp [get_object_dispatch, hsolar, get_or_update, hnone]
  · by_cases hsolar : lower key ∈ SOLAR_BODIES <;>
      simp [get_object_dispatch, hsolar]

/-- Witness for the amended C4: the entry GC present in the user file is
returned from that file without invoking the failing remote factory. -/
theorem explicit_source_uses_named_file_as_cache_witness :
    get_object_dispatch id id userFileExample (Except.error "down")
      (some "user") "GC" false
      = (Except.ok ⟨"Galactic center", "0deg", "0deg", "galactic"⟩, "user",
         userFileExample "user", false) :=
  (explicit_source_uses_named_file_as_cache id id userFileExample
    (Except.error "down") "user" "GC" false).2.2.1
    ⟨"Galactic center", "0deg", "0deg", "galactic"⟩ (by decide) rfl

/-- C5 (code bug evidence): src/azely/object.py imports conf in lowercase
(line 66) and never binds Conf, NameResolveError or AzelyError, but the body
of get_object_by_name evaluates Conf first (line 207); hence every call
raises NameError before the remote lookup can run, and the documented
AzelyError mapping of the except clauses — which the claim describes — is
unreachable, whatever the query, frame or remote outcome. -/
theorem get_object_by_name_raises_name_error :
    ("Conf" ∉ objectModuleNames
      ∧ "NameResolveError" ∉ objectModuleNames
      ∧ "AzelyError" ∉ objectModuleNames)
    ∧ ∀ (q f : String) (res : NameResolution) (nl nm : String → String),
        get_object_by_name_run objectModuleNames nl nm q f res
          = Except.error "NameError: name Conf is not defined" := by
  refine ⟨by decide, ?_⟩
  intro q f res nl nm
  have h : "Conf" ∉ objectModuleNames := by decide
  simp [get_object_by_name_run, h]

/-- C8: when the cached resolver stores a freshly resolved record, the store
key is the record's canonical resolved name — under the consistency
hypothesis that the fetched record's name is the canonical name of the query
— so after a first resolution of a query, both an alias and the canonical
name hit the same cache entry without a new fetch, and the literal query
string is not added as a key when it differs from the canonical name. -/
theorem cache_key_is_canonical_name :
    ∀ (R : Type) (canon : String → String) (fetch : String → R)
      (name_of : R → String) (m : Cache R) (q q2 : String),
      (∀ s2, name_of (fetch s2) = canon s2) →
      lookup_entry m (canon q) = none →
      canon q2 = canon q →
      cached_resolve canon fetch m q
        = (fetch q, update_entry m (canon q) (fetch q), true)
      ∧ lookup_entry (update_entry m (canon q) (fetch q)) (name_of (fetch q))
          = some (fetch q)
      ∧ cached_resolve canon fetch (update_entry m (canon q) (fetch q)) q2
          = (fetch q, update_entry m (canon q) (fetch q), false)
      ∧ (canon q ≠ q → q ∉ cacheKeys m →
          q ∉ cacheKeys (update_entry m (canon q) (fetch q))) := by
  intro R canon fetch name_of m q q2 hname hmiss halias
  refine ⟨by simp [cached_resolve, hmiss], ?_, ?_, ?_⟩
  · rw [hname q]
    exact lookup_update_self m (canon q) (fetch q)
  · simp [cached_resolve, halias, lookup_update_self]
  · intro hne hq
    rw [keys_update, if_neg ((mem_keys_lookup m (canon q)).not.mpr (by simp [hmiss]))]
    rw [List.mem_append]
    push_neg
    refine ⟨hq, ?_⟩
    simp only [List.mem_singleton]
    exact fun hh => hne hh.symm

/-- Witness for C8: with capitalization as the canonicalization, resolving
the query sun stores the record under Sun, and the canonical query Sun then
hits that entry without a fetch. -/
theorem cache_key_is_canonical_name_witness :
    cached_resolve capitalize capitalize [] "sun"
      = (capitalize "sun", update_entry [] (capitalize "sun") (capitalize "sun"), true)
    ∧ lookup_entry (update_entry [] (capitalize "sun") (capitalize "sun"))
        (id (capitalize "sun")) = some (capitalize "sun")
    ∧ cached_resolve capitalize capitalize
        (update_entry [] (capitalize "sun") (capitalize "sun")) "Sun"
      = (capitalize "sun", update_entry [] (capitalize "sun") (capitalize "sun"), false)
    ∧ (capitalize "sun" ≠ "sun" → "sun" ∉ cacheKeys ([] : Cache String) →
        "sun" ∉ cacheKeys (update_entry [] (capitalize "sun") (capitalize "sun"))) :=
  cache_key_is_canonical_name String capitalize capitalize id [] "sun" "Sun"
    (fun _ => rfl) rfl (by decide)

/-- C9: parse_timezone performs at most one level of indirection and always
terminates: a view that is a valid IANA timezone is returned directly with no
Location-resolver call, and otherwise the Location resolver is invoked
exactly once — with the update flag set — and that location's timezone is
returned; the resolver is an external collaborator and cannot re-enter this
parsing. -/
theorem parse_timezone_bounded :
    ∀ (isZone : String → Bool) (gl : String → Bool → Location) (q : String),
      (parse_timezone isZone gl q).2 ≤ 1
      ∧ (isZone q = true → parse_timezone isZone gl q = (q, 0))
      ∧ (isZone q = false →
          parse_timezone isZone gl q = ((gl q true).timezone, 1)) := by
  intro isZone gl q
  cases h : isZone q with
  | true =>
    refine ⟨by simp [parse_timezone, h], fun _ => by simp [parse_timezone, h], ?_⟩
    intro hf
    exact absurd hf (by simp)
  | false =>
    refine ⟨by simp [parse_timezone, h], ?_, fun _ => by simp [parse_timezone, h]⟩
    intro ht
    exact absurd ht (by simp)

/-- Witness for C9: a valid timezone name is returned with zero resolver
calls, and an unknown view goes through the Location resolver once. -/
theorem parse_timezone_bounded_witness :
    parse_timezone (fun s => s == "UTC") (fun _ _ => ⟨"Tokyo", "Asia/Tokyo"⟩) "UTC"
      = ("UTC", 0)
    ∧ parse_timezone (fun s => s == "UTC") (fun _ _ => ⟨"Tokyo", "Asia/Tokyo"⟩) "tokyo"
      = (((fun (_ : String) (_ : Bool) => (⟨"Tokyo", "Asia/Tokyo"⟩ : Location))
          "tokyo" true).timezone, 1) :=
  ⟨(parse_timezone_bounded (fun s => s == "UTC")
      (fun _ _ => ⟨"Tokyo", "Asia/Tokyo"⟩) "UTC").2.1 (by decide),
   (parse_timezone_bounded (fun s => s == "UTC")
      (fun _ _ => ⟨"Tokyo", "Asia/Tokyo"⟩) "tokyo").2.2 (by decide)⟩

/-- C10 (code bug evidence): for the solar-body query sun, the positional
construction Object(query.capitalize(), SOLAR_FRAME, "", "") in
get_object_solar, combined with the dataclass field order
(name, longitude, latitude, frame) declared in src/azely/object.py:76-101,
yields an object whose frame is the empty string and whose longitude is the
string solar, so is_solar is false and post-init applies the longitude unit
normalization to the string solar instead of bypassing it — contradicting
the module docstring's constructor order Object(name, frame, longitude,
latitude) and the claimed Object(name=Sun, frame=solar, longitude=empty,
latitude=empty). -/
theorem solar_object_field_order_bug :
    ∀ normLon normLat : String → String,
      "sun" ∈ SOLAR_BODIES
      ∧ (get_object_solar_body normLon normLat "sun").name = "Sun"
      ∧ (get_object_solar_body normLon normLat "sun").frame = ""
      ∧ (get_object_solar_body normLon normLat "sun").is_solar = false
      ∧ (get_object_solar_body normLon normLat "sun").longitude
          = normLon SOLAR_FRAME
      ∧ (get_object_solar_body normLon normLat "sun").latitude = normLat "" := by
  intro normLon normLat
  have hobj : get_object_solar_body normLon normLat "sun"
      = ⟨capitalize "sun", normLon SOLAR_FRAME, normLat "", ""⟩ := by
    simp only [get_object_solar_body, mkObject, Object.is_solar]
    rw [if_neg (by decide : ¬ (decide ("" = SOLAR_FRAME) = true))]
  refine ⟨by decide, ?_, ?_, ?_, ?_, ?_⟩
  · rw [hobj]
    show capitalize "sun" = "Sun"
    decide
  · rw [hobj]
  · rw [hobj]
    show decide (("" : String) = SOLAR_FRAME) = false
    decide
  · rw [hobj]
  · rw [hobj]

end Azely
